/-
Verification of the data-processing pipeline in `data_processing.py`
(`root2pandas`, `build_X`, `read_in`, `scale_shuffle_split`).

Shallow embedding choices:
* A pandas `DataFrame` / numpy record array is a `Table`: an ordered list of
  column names plus a list of rows; a row is an association list from column
  name to cell value.  A cell access on a column the row does not carry
  returns the absence marker `Val.nan` (the masked / NaN fill that
  `stack_arrays` + `pd.DataFrame` produce for missing fields).
* The file system is a parameter `FS`: `glob` expands a pattern to the list of
  matching paths, `load` is `root2array(fpath, tree_name)` returning the
  decoded record array of one file (the decode boundary is a black box).
* Python exceptions become `Except PyErr`:
  `indexError` is the exception `stack_arrays` raises on an empty file list,
  `keyError` is the pandas `KeyError` on a missing column,
  `attributeError` is the failure of `build_X(False, ...)` when the class
  dict was empty, and `nameError n` is an undefined-name failure.
* sklearn's `LabelEncoder.fit_transform` is `fit_transform`: `numpy.unique`
  (sorted distinct values) followed by position lookup.
-/
import Mathlib

set_option maxHeartbeats 1000000
set_option synthInstance.maxSize 256
set_option linter.unusedVariables false

/-- Cell values: a number, a string, or the absence marker (masked / NaN). -/
inductive Val where
  | num (x : Int)
  | str (s : String)
  | nan
deriving DecidableEq, Repr

/-- A row of a record array / DataFrame: ordered association list from
column name to value. -/
abbrev Row := List (String × Val)

/-- Cell access: the value stored under column `c`, or the absence marker
`Val.nan` when the row carries no such column (the masked-fill semantics of
`stack_arrays` / `pd.DataFrame`). -/
def Row.cell : Row → String → Val
  | [], _ => Val.nan
  | (c', v) :: r, c => if c' = c then v else Row.cell r c

/-- Python's `df[col] = v` at row level: drop any existing binding for `c`
and bind `c` to `v`. -/
def Row.set (r : Row) (c : String) (v : Val) : Row :=
  r.filter (fun p => p.1 != c) ++ [(c, v)]

/-- A DataFrame / record array: ordered column names and rows. -/
@[ext]
structure Table where
  cols : List String
  rows : List Row
deriving DecidableEq, Repr

/-- Well-formed record array, as `root2array` produces it: every row carries
exactly the table's columns, in order. -/
def Table.WF (t : Table) : Prop := ∀ r ∈ t.rows, r.map Prod.fst = t.cols

instance (t : Table) : Decidable t.WF :=
  inferInstanceAs (Decidable (∀ r ∈ t.rows, r.map Prod.fst = t.cols))

/-- `df[c] = v` (pandas column assignment): every row gets `c ↦ v`; a new
column name is appended at the end of the column order. -/
def Table.setCol (t : Table) (c : String) (v : Val) : Table :=
  { cols := if c ∈ t.cols then t.cols else t.cols ++ [c],
    rows := t.rows.map (fun r => r.set c v) }

/-- Python exceptions the pipeline can raise (see the header comment). -/
inductive PyErr where
  | indexError
  | keyError
  | attributeError
  | nameError (n : String)
deriving DecidableEq, Repr

/-- `df[c]` (pandas column extraction): the column's values in row order, or
a `KeyError` when the column is absent. -/
def Table.getColumn (t : Table) (c : String) : Except PyErr (List Val) :=
  if c ∈ t.cols then .ok (t.rows.map (fun r => r.cell c)) else .error .keyError

/-- The file-system / decode boundary: `glob` expands one pattern to the
matching paths, `load f` is `root2array(f, tree_name)` on one matched file. -/
structure FS where
  glob : String → List String
  load : String → Table

/-- The `file_paths` argument of `root2pandas`: one glob string or a list of
glob strings (the `isinstance(file_paths, basestring)` test). -/
inductive Patterns where
  | single (s : String)
  | several (l : List String)
deriving DecidableEq, Repr

/-- Pattern expansion of `root2pandas`: `glob.glob(file_paths)` for a single
string, else the concatenation of `glob.glob(f)` over the list. -/
def expandPatterns (fs : FS) : Patterns → List String
  | .single s => fs.glob s
  | .several l => l.flatMap fs.glob

/-- Column union as `numpy.lib.recfunctions.stack_arrays` builds its output
dtype: the first array's fields, then each later field not seen yet. -/
def unionCols (cs1 cs2 : List String) : List String :=
  cs1 ++ cs2.filter (fun c => ¬ c ∈ cs1)

/-- Output columns of `stack_arrays` over a list of record arrays. -/
def stackCols (css : List (List String)) : List String :=
  css.foldl unionCols []

/-- The table `root2pandas` builds once the matched file list is non-empty:
`stack_arrays` unions the per-file schemas and concatenates the rows in file
order; rows keep only their own file's columns, missing fields read as the
absence marker through `Row.cell`. -/
def loadedTable (fs : FS) (pats : Patterns) : Table :=
  let files := expandPatterns fs pats
  { cols := stackCols (files.map (fun f => (fs.load f).cols)),
    rows := files.flatMap (fun f => (fs.load f).rows) }

/-- `root2pandas(file_paths, tree_name)`: expand the patterns, run
`root2array` per matched file, `stack_arrays` the results and wrap them in a
DataFrame.  On an empty matched-file list `stack_arrays` raises (it indexes
`ndtype[0]` of an empty list); the `try/except` around `pd.DataFrame` does
not catch this, so the error propagates.  Both `pd.DataFrame(ss)` and the
fallback `pd.DataFrame(ss.data)` yield the same table in this model, the
absence marker standing for NaN / the mask fill value. -/
def root2pandas (fs : FS) (pats : Patterns) : Except PyErr Table :=
  if expandPatterns fs pats = [] then .error .indexError
  else .ok (loadedTable fs pats)

instance {ε α : Type} [DecidableEq ε] [DecidableEq α] : DecidableEq (Except ε α) := fun x y =>
  match x, y with
  | .error a, .error b => if h : a = b then .isTrue (by rw [h]) else .isFalse (by simp [h])
  | .ok a, .ok b => if h : a = b then .isTrue (by rw [h]) else .isFalse (by simp [h])
  | .error _, .ok _ => .isFalse (by simp)
  | .ok _, .error _ => .isFalse (by simp)

/-- Python `key.startswith(phrase)`: the phrase's characters are a prefix of
the key's characters (case-sensitive, anchored at the start). -/
def pyStartsWith (k phrase : String) : Bool := phrase.data.isPrefixOf k.data

/-- List comprehension of `build_X`:
`[key for key in events.keys() if key.startswith(phrase)]`, the matching
column names in the DataFrame's column order. -/
def selectedCols (t : Table) (phrase : String) : List String :=
  t.cols.filter (fun k => pyStartsWith k phrase)

/-- Column-subset selection `events[[key, ...]]`: the same rows restricted to
the selected columns. -/
def selectDF (t : Table) (phrase : String) : Table :=
  { cols := selectedCols t phrase,
    rows := t.rows.map (fun r => r.filter (fun p => p.1 ∈ selectedCols t phrase)) }

/-- Pandas `.as_matrix()`: the dense value matrix, cells read in the table's
column order, rows in table order. -/
def Table.as_matrix (t : Table) : List (List Val) :=
  t.rows.map (fun r => t.cols.map (fun c => r.cell c))

/-- `build_X(events, phrase)`: select the prefix-matching columns and
materialise them as a matrix. -/
def build_X (events : Table) (phrase : String) : List (List Val) :=
  (selectDF events phrase).as_matrix

/-- Pandas `pd.concat([t1, t2], ignore_index=True)`: rows of the first frame
then rows of the second, over the union of the two column sets. -/
def pdConcat (t1 t2 : Table) : Table :=
  { cols := unionCols t1.cols t2.cols, rows := t1.rows ++ t2.rows }

/-- Per-class table inside the `read_in` loop: the loaded DataFrame after
`df['y'] = key` stamped every row with the class tag. -/
def classTable (fs : FS) (kp : String × Patterns) : Table :=
  (loadedTable fs kp.2).setCol "y" (Val.str kp.1)

/-- The accumulation loop of `read_in` over the class dictionary, with the
accumulator made explicit: `none` is the initial `all_events = False`, the
first class replaces it, later classes are concatenated with `pd.concat`.
Any loader error aborts the loop. -/
def aggregate (fs : FS) : List (String × Patterns) → Option Table → Except PyErr (Option Table)
  | [], acc => .ok acc
  | (key, pats) :: rest, acc =>
    match root2pandas fs pats with
    | .error e => .error e
    | .ok df =>
      let df' := df.setCol "y" (Val.str key)
      match acc with
      | none => aggregate fs rest (some df')
      | some t => aggregate fs rest (some (pdConcat t df'))

/-- Tag string held in a cell of the class-tag column; in `read_in` every
cell of column `y` is a string by construction. -/
def Val.asTag : Val → String
  | .str s => s
  | _ => ""

/-- Lexicographic comparison of character sequences by code point, the
order `numpy.unique` sorts strings by. -/
def lexLe : List Char → List Char → Bool
  | [], _ => true
  | _ :: _, [] => false
  | a :: s, b :: t =>
    if a.toNat < b.toNat then true
    else if b.toNat < a.toNat then false
    else lexLe s t

/-- String comparison used when sorting the encoder's classes. -/
def strLe (s t : String) : Bool := lexLe s.data t.data

/-- Model of `numpy.unique` as used by `sklearn.LabelEncoder.fit`: the
distinct values in sorted order. -/
def np_unique (xs : List String) : List String :=
  (xs.dedup).insertionSort (fun a b => strLe a b)

/-- Model of `LabelEncoder().fit_transform(xs)`: the encoder's classes are
`np_unique xs` and each value is replaced by its position in that sorted
distinct list. -/
def fit_transform (xs : List String) : List Nat :=
  xs.map (fun x => (np_unique xs).indexOf x)

/-- `read_in(class_files_dict)`: run the aggregation loop, slice the three
feature groups, encode the labels of column `y`, and extract the
`EventWeight` column.  An empty dictionary leaves `all_events = False` and
`build_X` then fails on `False.keys()` with an AttributeError. -/
def read_in (fs : FS) (class_files_dict : List (String × Patterns)) :
    Except PyErr (List (List Val) × List (List Val) × List (List Val) × List Nat × List Val) :=
  match aggregate fs class_files_dict none with
  | .error e => .error e
  | .ok none => .error .attributeError
  | .ok (some all_events) =>
    let X_jets := build_X all_events "Jet"
    let X_photons := build_X all_events "Photon"
    let X_muons := build_X all_events "Muon"
    match all_events.getColumn "y" with
    | .error e => .error e
    | .ok yvals =>
      let y := fit_transform (yvals.map Val.asTag)
      match all_events.getColumn "EventWeight" with
      | .error e => .error e
      | .ok w => .ok (X_jets, X_photons, X_muons, y, w)

/-- Module-level names bound in `data_processing.py` when
`scale_shuffle_split` runs: the imports and the four function definitions. -/
def moduleScopeNames : List String :=
  ["np", "stack_arrays", "root2array", "pd", "glob", "argparse", "LabelEncoder",
   "root2pandas", "build_X", "read_in", "scale_shuffle_split"]

/-- Names bound in the local scope of `scale_shuffle_split` when its first
statement runs: exactly its five parameters. -/
def sssParamNames : List String := ["X_jets", "X_photons", "X_muons", "y", "w"]

/-- Names loaded, in evaluation order, by the first statement of
`scale_shuffle_split`:
`train_test_split(X1, X2, X3, y, w, test_size=0.4)`. -/
def sssFirstStmtNames : List String := ["train_test_split", "X1", "X2", "X3", "y", "w"]

/-- `scale_shuffle_split` as written: its first statement resolves each
loaded name against the local scope and the module scope; the first name
bound in neither raises a NameError.  The fall-through branch is dead code
in this module (the first statement references names that are not bound),
so the split/scale behaviour past it is not modelled. -/
def scale_shuffle_split (X_jets X_photons X_muons : List (List Val)) (y : List Nat)
    (w : List Val) : Except PyErr Unit :=
  match sssFirstStmtNames.find? (fun n => ¬ (n ∈ sssParamNames ∨ n ∈ moduleScopeNames)) with
  | some n => .error (.nameError n)
  | none => .ok ()

/-- Concrete two-row signal file used by the witness theorems. -/
def Ts1 : Table :=
  { cols := ["JetPt", "PhotonE", "EventWeight"],
    rows := [[("JetPt", .num 1), ("PhotonE", .num 5), ("EventWeight", .num 9)],
             [("JetPt", .num 2), ("PhotonE", .num 6), ("EventWeight", .num 10)]] }

/-- Concrete one-row background file (no photon column). -/
def Tb1 : Table :=
  { cols := ["JetPt", "EventWeight"],
    rows := [[("JetPt", .num 3), ("EventWeight", .num 11)]] }

/-- Concrete second one-row background file. -/
def Tb2 : Table :=
  { cols := ["JetPt", "EventWeight"],
    rows := [[("JetPt", .num 4), ("EventWeight", .num 12)]] }

/-- Concrete file system for the witness theorems. -/
def fsW : FS :=
  { glob := fun p =>
      if p = "s*" then ["s1"]
      else if p = "b*" then ["b1", "b2"]
      else if p = "b1*" then ["b1"]
      else [],
    load := fun f =>
      if f = "s1" then Ts1
      else if f = "b1" then Tb1
      else if f = "b2" then Tb2
      else ⟨[], []⟩ }

/-- Concrete class dictionary for the witness theorems. -/
def dW : List (String × Patterns) := [("sig", .single "s*"), ("bkg", .several ["b*"])]

/-- The combined table the witness world's aggregation produces. -/
def tW : Table :=
  { cols := ["JetPt", "PhotonE", "EventWeight", "y"],
    rows := [[("JetPt", Val.num 1), ("PhotonE", Val.num 5), ("EventWeight", Val.num 9),
              ("y", Val.str "sig")],
             [("JetPt", Val.num 2), ("PhotonE", Val.num 6), ("EventWeight", Val.num 10),
              ("y", Val.str "sig")],
             [("JetPt", Val.num 3), ("EventWeight", Val.num 11), ("y", Val.str "bkg")],
             [("JetPt", Val.num 4), ("EventWeight", Val.num 12), ("y", Val.str "bkg")]] }

theorem lexLe_cons {a b : Char} {s t : List Char} :
    lexLe (a :: s) (b :: t) = true ↔
      (a.toNat < b.toNat ∨ (a.toNat = b.toNat ∧ lexLe s t = true)) := by
  have hdef : lexLe (a :: s) (b :: t) =
      if a.toNat < b.toNat then true
      else if b.toNat < a.toNat then false
      else lexLe s t := rfl
  rw [hdef]
  split_ifs with h1 h2
  · simp [h1]
  · constructor
    · intro h; simp at h
    · rintro (h | ⟨h, _⟩) <;> omega
  · have he : a.toNat = b.toNat := by omega
    simp [he]

theorem lexLe_total : ∀ s t : List Char, lexLe s t = true ∨ lexLe t s = true
  | [], _ => .inl rfl
  | _ :: _, [] => .inr rfl
  | a :: s, b :: t => by
    rcases Nat.lt_trichotomy a.toNat b.toNat with hc | hc | hc
    · exact .inl (lexLe_cons.2 (.inl hc))
    · rcases lexLe_total s t with h | h
      · exact .inl (lexLe_cons.2 (.inr ⟨hc, h⟩))
      · exact .inr (lexLe_cons.2 (.inr ⟨hc.symm, h⟩))
    · exact .inr (lexLe_cons.2 (.inl hc))

theorem lexLe_trans : ∀ s t u : List Char,
    lexLe s t = true → lexLe t u = true → lexLe s u = true
  | [], _, _, _, _ => rfl
  | _ :: _, [], _, h, _ => by simp [lexLe] at h
  | _ :: _, _ :: _, [], _, h => by simp [lexLe] at h
  | a :: s, b :: t, c :: u, h1, h2 => by
    rw [lexLe_cons] at h1 h2 ⊢
    rcases h1 with h1 | ⟨h1e, h1r⟩
    · rcases h2 with h2 | ⟨h2e, h2r⟩
      · exact .inl (by omega)
      · exact .inl (by omega)
    · rcases h2 with h2 | ⟨h2e, h2r⟩
      · exact .inl (by omega)
      · exact .inr ⟨by omega, lexLe_trans s t u h1r h2r⟩

theorem lexLe_antisymm : ∀ s t : List Char, lexLe s t = true → lexLe t s = true → s = t
  | [], [], _, _ => rfl
  | [], _ :: _, _, h => by simp [lexLe] at h
  | _ :: _, [], h, _ => by simp [lexLe] at h
  | a :: s, b :: t, h1, h2 => by
    rw [lexLe_cons] at h1 h2
    rcases h1 with h1 | ⟨h1e, h1r⟩
    · rcases h2 with h2 | ⟨h2e, h2r⟩ <;> omega
    · rcases h2 with h2 | ⟨h2e, h2r⟩
      · omega
      · rw [Char.ext_iff.mpr (UInt32.ext_iff.mpr h1e), lexLe_antisymm s t h1r h2r]

instance : IsTotal String (fun s t => strLe s t = true) :=
  ⟨fun s t => lexLe_total s.data t.data⟩

instance : IsTrans String (fun s t => strLe s t = true) :=
  ⟨fun s t u => lexLe_trans s.data t.data u.data⟩

instance : IsAntisymm String (fun s t => strLe s t = true) :=
  ⟨fun s t h1 h2 => String.toList_inj.1 (lexLe_antisymm s.data t.data h1 h2)⟩

theorem Row.cell_append_of_ne {l : Row} (l' : Row) {c : String}
    (h : ∀ p ∈ l, p.1 ≠ c) : Row.cell (l ++ l') c = Row.cell l' c := by
  induction l with
  | nil => rfl
  | cons p l ih =>
    obtain ⟨c', v⟩ := p
    have hne : c' ≠ c := h _ (List.mem_cons_self _ _)
    simpa [Row.cell, hne] using ih (fun q hq => h q (List.mem_cons_of_mem _ hq))

theorem Row.cell_of_all_ne {r : Row} {c : String} (h : ∀ p ∈ r, p.1 ≠ c) :
    r.cell c = Val.nan := by
  have := Row.cell_append_of_ne (l := r) [] h
  simpa using this

theorem Row.cell_set_self (r : Row) (c : String) (v : Val) :
    (r.set c v).cell c = v := by
  unfold Row.set
  rw [Row.cell_append_of_ne]
  · simp [Row.cell]
  · intro p hp
    have := List.of_mem_filter hp
    simpa using this

theorem Row.cell_filter_of_mem {r : Row} {sel : List String} {c : String} (hc : c ∈ sel) :
    Row.cell (r.filter (fun p => p.1 ∈ sel)) c = r.cell c := by
  induction r with
  | nil => rfl
  | cons p r ih =>
    obtain ⟨c', v⟩ := p
    by_cases hmem : c' ∈ sel
    · by_cases he : c' = c <;> simp [List.filter_cons, hmem, Row.cell, he, hc, ih]
    · have hne : c' ≠ c := fun he => hmem (he ▸ hc)
      simp [List.filter_cons, hmem, Row.cell, hne, ih]

theorem mem_unionCols {c : String} {cs1 cs2 : List String} :
    c ∈ unionCols cs1 cs2 ↔ c ∈ cs1 ∨ c ∈ cs2 := by
  simp only [unionCols, List.mem_append, List.mem_filter, decide_eq_true_eq]
  tauto

theorem build_X_eq (t : Table) (phrase : String) :
    build_X t phrase =
      t.rows.map (fun r => (selectedCols t phrase).map (fun c => r.cell c)) := by
  unfold build_X selectDF Table.as_matrix
  simp only [List.map_map]
  apply List.map_congr_left
  intro r _
  apply List.map_congr_left
  intro c hc
  exact Row.cell_filter_of_mem hc

/-- C5: for every table and prefix, `build_X` selects exactly the columns
whose names start with the prefix (case-sensitive prefix match), in the
table's column order; the matrix has one row per table row and one entry per
matching column; zero matching columns give zero-width rows rather than an
error. -/
theorem build_X_prefix_slice (t : Table) (phrase : String) :
    (selectedCols t phrase).Sublist t.cols ∧
    (∀ c, c ∈ selectedCols t phrase ↔ c ∈ t.cols ∧ phrase.data <+: c.data) ∧
    (build_X t phrase).length = t.rows.length ∧
    (∀ row ∈ build_X t phrase, row.length = (selectedCols t phrase).length) ∧
    build_X t phrase =
      t.rows.map (fun r => (selectedCols t phrase).map (fun c => r.cell c)) := by
  refine ⟨List.filter_sublist _, fun c => ?_, ?_, ?_, build_X_eq t phrase⟩
  · simp [selectedCols, List.mem_filter, pyStartsWith]
  · rw [build_X_eq]; exact List.length_map _ _
  · intro row hrow
    rw [build_X_eq] at hrow
    obtain ⟨r, _, rfl⟩ := List.mem_map.1 hrow
    exact List.length_map _ _

/-- C5 witness: the general slicing theorem applied to the concrete combined
table of the witness world. -/
theorem build_X_prefix_slice_witness :
    (selectedCols Ts1 "Jet").Sublist Ts1.cols ∧
    (∀ c, c ∈ selectedCols Ts1 "Jet" ↔ c ∈ Ts1.cols ∧ ("Jet").data <+: c.data) ∧
    (build_X Ts1 "Jet").length = Ts1.rows.length ∧
    (∀ row ∈ build_X Ts1 "Jet", row.length = (selectedCols Ts1 "Jet").length) ∧
    build_X Ts1 "Jet" =
      Ts1.rows.map (fun r => (selectedCols Ts1 "Jet").map (fun c => r.cell c)) :=
  build_X_prefix_slice Ts1 "Jet"

/-- C7: the Feature Slicer is pure and idempotent: selecting the
prefix-matching columns of an already-sliced table changes nothing, and
slicing the sliced table yields the identical matrix; the input table is a
value, never mutated. -/
theorem build_X_idempotent (t : Table) (phrase : String) :
    selectDF (selectDF t phrase) phrase = selectDF t phrase ∧
    build_X (selectDF t phrase) phrase = build_X t phrase := by
  have hcols : selectedCols (selectDF t phrase) phrase = selectedCols t phrase := by
    show (selectedCols t phrase).filter _ = _
    rw [selectedCols, List.filter_filter]
    simp
  have hrows : (selectDF (selectDF t phrase) phrase).rows = (selectDF t phrase).rows := by
    show ((selectDF t phrase).rows).map
        (fun r => r.filter (fun p => p.1 ∈ selectedCols (selectDF t phrase) phrase)) =
      (selectDF t phrase).rows
    rw [hcols]
    show (t.rows.map (fun r => r.filter (fun p => p.1 ∈ selectedCols t phrase))).map
        (fun r => r.filter (fun p => p.1 ∈ selectedCols t phrase)) =
      t.rows.map (fun r => r.filter (fun p => p.1 ∈ selectedCols t phrase))
    rw [List.map_map]
    apply List.map_congr_left
    intro r _
    show (r.filter _).filter _ = r.filter _
    rw [List.filter_filter]
    simp
  have hsel : selectDF (selectDF t phrase) phrase = selectDF t phrase :=
    Table.ext hcols hrows
  exact ⟨hsel, by unfold build_X; rw [hsel]⟩

/-- C7 witness: idempotence of the slicer at a concrete table and prefix. -/
theorem build_X_idempotent_witness :
    selectDF (selectDF Ts1 "Jet") "Jet" = selectDF Ts1 "Jet" ∧
    build_X (selectDF Ts1 "Jet") "Jet" = build_X Ts1 "Jet" :=
  build_X_idempotent Ts1 "Jet"

theorem root2pandas_ok {fs : FS} {pats : Patterns} (h : expandPatterns fs pats ≠ []) :
    root2pandas fs pats = .ok (loadedTable fs pats) := by
  simp [root2pandas, h]

theorem root2pandas_ok_nonempty {fs : FS} {pats : Patterns} {t : Table}
    (h : root2pandas fs pats = .ok t) : expandPatterns fs pats ≠ [] := by
  intro he
  simp [root2pandas, he] at h

theorem foldl_pdConcat_rows (fs : FS) :
    ∀ (d : List (String × Patterns)) (t0 : Table),
      (d.foldl (fun t kp => pdConcat t (classTable fs kp)) t0).rows =
        t0.rows ++ d.flatMap (fun kp => (classTable fs kp).rows)
  | [], t0 => by simp
  | kp :: rest, t0 => by
    simp only [List.foldl_cons, List.flatMap_cons]
    rw [foldl_pdConcat_rows fs rest]
    show (pdConcat t0 (classTable fs kp)).rows ++ _ = _
    simp [pdConcat, List.append_assoc]

theorem classTable_rows (fs : FS) (kp : String × Patterns) :
    (classTable fs kp).rows =
      (loadedTable fs kp.2).rows.map (fun r => r.set "y" (Val.str kp.1)) := rfl

theorem classTable_cell_y (fs : FS) (kp : String × Patterns) :
    ∀ r ∈ (classTable fs kp).rows, r.cell "y" = Val.str kp.1 := by
  intro r hr
  rw [classTable_rows] at hr
  obtain ⟨r', _, rfl⟩ := List.mem_map.1 hr
  exact Row.cell_set_self r' _ _

theorem aggregate_some_ok (fs : FS) :
    ∀ (d : List (String × Patterns)) (t0 : Table),
      (∀ kp ∈ d, expandPatterns fs kp.2 ≠ []) →
      aggregate fs d (some t0) =
        .ok (some (d.foldl (fun t kp => pdConcat t (classTable fs kp)) t0))
  | [], t0, _ => rfl
  | (key, pats) :: rest, t0, h => by
    have hh := h (key, pats) (List.mem_cons_self _ _)
    simp only [aggregate, root2pandas_ok hh, List.foldl_cons]
    exact aggregate_some_ok fs rest _ (fun kp hkp => h kp (List.mem_cons_of_mem _ hkp))

theorem aggregate_none_ok (fs : FS) (kp : String × Patterns) (rest : List (String × Patterns))
    (h : ∀ q ∈ kp :: rest, expandPatterns fs q.2 ≠ []) :
    aggregate fs (kp :: rest) none =
      .ok (some (rest.foldl (fun t q => pdConcat t (classTable fs q)) (classTable fs kp))) := by
  obtain ⟨key, pats⟩ := kp
  have hh := h (key, pats) (List.mem_cons_self _ _)
  simp only [aggregate, root2pandas_ok hh]
  exact aggregate_some_ok fs rest _ (fun q hq => h q (List.mem_cons_of_mem _ hq))

theorem aggregate_ok_all_nonempty (fs : FS) :
    ∀ (d : List (String × Patterns)) (acc : Option Table) (x : Option Table),
      aggregate fs d acc = .ok x → ∀ kp ∈ d, expandPatterns fs kp.2 ≠ []
  | [], _, _, _, kp, hkp => absurd hkp (List.not_mem_nil _)
  | (key, pats) :: rest, acc, x, h, kp, hkp => by
    simp only [aggregate] at h
    cases hre : root2pandas fs pats with
    | error e => rw [hre] at h; simp at h
    | ok df =>
      rw [hre] at h
      rcases List.mem_cons.1 hkp with heq | hmem
      · rw [heq]
        exact root2pandas_ok_nonempty hre
      · cases acc with
        | none => exact aggregate_ok_all_nonempty fs rest _ _ h kp hmem
        | some t => exact aggregate_ok_all_nonempty fs rest _ _ h kp hmem

/-- C1: for a non-empty class dictionary whose patterns all match at least
one file, the aggregation loop of `read_in` succeeds and the combined
table's rows are exactly the concatenation, in dictionary order, of the
per-class blocks; each block is the loader's rows in order, stamped with the
class tag in column `y`, so the total row count is the sum of the per-class
row counts and every row's tag cell holds its source class. -/
theorem read_in_concat_blocks (fs : FS) (d : List (String × Patterns))
    (hne : d ≠ []) (hload : ∀ kp ∈ d, expandPatterns fs kp.2 ≠ []) :
    ∃ t : Table,
      aggregate fs d none = .ok (some t) ∧
      t.rows = d.flatMap (fun kp => (classTable fs kp).rows) ∧
      t.rows.length = (d.map (fun kp => (loadedTable fs kp.2).rows.length)).sum ∧
      (∀ kp ∈ d, (classTable fs kp).rows =
        (loadedTable fs kp.2).rows.map (fun r => r.set "y" (Val.str kp.1))) ∧
      (∀ kp ∈ d, ∀ r ∈ (classTable fs kp).rows, r.cell "y" = Val.str kp.1) := by
  obtain ⟨kp, rest, rfl⟩ := List.exists_cons_of_ne_nil hne
  have hrows : (rest.foldl (fun t q => pdConcat t (classTable fs q)) (classTable fs kp)).rows
      = (kp :: rest).flatMap (fun q => (classTable fs q).rows) := by
    rw [foldl_pdConcat_rows]
    simp
  refine ⟨_, aggregate_none_ok fs kp rest hload, hrows, ?_,
    fun q _ => classTable_rows fs q, fun q _ => classTable_cell_y fs q⟩
  rw [hrows, List.length_flatMap]
  refine congrArg List.sum (List.map_congr_left ?_)
  intro q _
  show ((classTable fs q).rows).length = _
  rw [classTable_rows, List.length_map]

/-- C1 witness: the aggregation theorem instantiated on the concrete witness
world with two classes and three files. -/
theorem read_in_concat_blocks_witness :
    ∃ t : Table,
      aggregate fsW dW none = .ok (some t) ∧
      t.rows = dW.flatMap (fun kp => (classTable fsW kp).rows) ∧
      t.rows.length = (dW.map (fun kp => (loadedTable fsW kp.2).rows.length)).sum ∧
      (∀ kp ∈ dW, (classTable fsW kp).rows =
        (loadedTable fsW kp.2).rows.map (fun r => r.set "y" (Val.str kp.1))) ∧
      (∀ kp ∈ dW, ∀ r ∈ (classTable fsW kp).rows, r.cell "y" = Val.str kp.1) :=
  read_in_concat_blocks fsW dW (by decide) (by decide)

/-- C4: a pattern set that expands to zero files makes `root2pandas` raise
(the empty list reaches `stack_arrays`, which fails) instead of returning an
empty table, and a `read_in` whose dictionary contains such a class never
returns a combined result. -/
theorem zero_matches_abort (fs : FS) (pats : Patterns) (d : List (String × Patterns))
    (k : String) (hexp : expandPatterns fs pats = []) (hmem : (k, pats) ∈ d) :
    root2pandas fs pats = .error PyErr.indexError ∧
    ∀ res, read_in fs d ≠ .ok res := by
  refine ⟨by simp [root2pandas, hexp], ?_⟩
  intro res hok
  unfold read_in at hok
  cases hagg : aggregate fs d none with
  | error e => rw [hagg] at hok; simp at hok
  | ok acc =>
    have := aggregate_ok_all_nonempty fs d none acc hagg (k, pats) hmem
    exact this hexp

theorem getColumn_ok {t : Table} {c : String} {vs : List Val}
    (h : t.getColumn c = .ok vs) :
    c ∈ t.cols ∧ vs = t.rows.map (fun r => r.cell c) := by
  by_cases hm : c ∈ t.cols
  · refine ⟨hm, ?_⟩
    have := h.symm
    rw [Table.getColumn, if_pos hm] at this
    injection this
  · simp [Table.getColumn, hm] at h

theorem fit_transform_length (xs : List String) : (fit_transform xs).length = xs.length :=
  List.length_map _ _

theorem aggregate_some_y_mem (fs : FS) :
    ∀ (d : List (String × Patterns)) (acc : Option Table) (t : Table),
      aggregate fs d acc = .ok (some t) →
      (∀ t0, acc = some t0 → "y" ∈ t0.cols) → "y" ∈ t.cols
  | [], acc, t, h, hinv => by
    cases acc with
    | none => simp [aggregate] at h
    | some t0 =>
      have heq : t0 = t := by simpa [aggregate] using h
      exact heq ▸ hinv t0 rfl
  | (key, pats) :: rest, acc, t, h, hinv => by
    simp only [aggregate] at h
    cases hre : root2pandas fs pats with
    | error e => rw [hre] at h; simp at h
    | ok df =>
      rw [hre] at h
      have hdf : "y" ∈ (df.setCol "y" (Val.str key)).cols := by
        unfold Table.setCol
        by_cases hy : "y" ∈ df.cols <;> simp [hy]
      cases acc with
      | none =>
        exact aggregate_some_y_mem fs rest _ t h
          (fun t0 ht0 => by injection ht0 with ht0; rw [← ht0]; exact hdf)
      | some tp =>
        exact aggregate_some_y_mem fs rest _ t h
          (fun t0 ht0 => by
            injection ht0 with ht0
            rw [← ht0]
            exact mem_unionCols.2 (Or.inr hdf))

theorem aggregate_y_mem {fs : FS} {d : List (String × Patterns)} {t : Table}
    (h : aggregate fs d none = .ok (some t)) : "y" ∈ t.cols :=
  aggregate_some_y_mem fs d none t h (by simp)

theorem read_in_ok_of_weight_mem {fs : FS} {d : List (String × Patterns)} {t : Table}
    (hagg : aggregate fs d none = .ok (some t)) (hw : "EventWeight" ∈ t.cols) :
    read_in fs d = .ok (build_X t "Jet", build_X t "Photon", build_X t "Muon",
      fit_transform ((t.rows.map (fun r => r.cell "y")).map Val.asTag),
      t.rows.map (fun r => r.cell "EventWeight")) := by
  have hy := aggregate_y_mem hagg
  unfold read_in
  rw [hagg]
  simp [Table.getColumn, hy, hw]

theorem read_in_keyError_of_weight_not_mem {fs : FS} {d : List (String × Patterns)}
    {t : Table} (hagg : aggregate fs d none = .ok (some t))
    (hw : "EventWeight" ∉ t.cols) : read_in fs d = .error PyErr.keyError := by
  have hy := aggregate_y_mem hagg
  unfold read_in
  rw [hagg]
  simp [Table.getColumn, hy, hw]

/-- C2: whenever `read_in` succeeds, its five outputs are row-aligned with
the combined table: each feature matrix is the row-wise projection of the
combined table onto its prefix columns, the label vector encodes the tag
column row by row, the weight vector is the weight column row by row, and
all five have exactly the combined table's row count. -/
theorem read_in_row_alignment (fs : FS) (d : List (String × Patterns))
    (Xj Xp Xm : List (List Val)) (y : List Nat) (w : List Val)
    (h : read_in fs d = .ok (Xj, Xp, Xm, y, w)) :
    ∃ t : Table,
      aggregate fs d none = .ok (some t) ∧
      Xj = t.rows.map (fun r => (selectedCols t "Jet").map (fun c => r.cell c)) ∧
      Xp = t.rows.map (fun r => (selectedCols t "Photon").map (fun c => r.cell c)) ∧
      Xm = t.rows.map (fun r => (selectedCols t "Muon").map (fun c => r.cell c)) ∧
      y = fit_transform ((t.rows.map (fun r => r.cell "y")).map Val.asTag) ∧
      w = t.rows.map (fun r => r.cell "EventWeight") ∧
      Xj.length = t.rows.length ∧ Xp.length = t.rows.length ∧ Xm.length = t.rows.length ∧
      y.length = t.rows.length ∧ w.length = t.rows.length := by
  cases hagg : aggregate fs d none with
  | error e =>
    unfold read_in at h
    rw [hagg] at h
    simp at h
  | ok acc =>
    cases acc with
    | none =>
      unfold read_in at h
      rw [hagg] at h
      simp at h
    | some t =>
      by_cases hw : "EventWeight" ∈ t.cols
      · rw [read_in_ok_of_weight_mem hagg hw] at h
        simp only [Except.ok.injEq, Prod.mk.injEq] at h
        obtain ⟨h1, h2, h3, h4, h5⟩ := h
        refine ⟨t, rfl, ?_, ?_, ?_, ?_, ?_, ?_, ?_, ?_, ?_, ?_⟩ <;>
          simp [← h1, ← h2, ← h3, ← h4, ← h5, build_X_eq, fit_transform_length]
      · rw [read_in_keyError_of_weight_not_mem hagg hw] at h
        simp at h

/-- C2 witness: the alignment theorem applied to the concrete successful
pipeline run of the witness world. -/
theorem read_in_row_alignment_witness :
    ∃ t : Table,
      aggregate fsW dW none = .ok (some t) ∧
      [[Val.num 1], [Val.num 2], [Val.num 3], [Val.num 4]] =
        t.rows.map (fun r => (selectedCols t "Jet").map (fun c => r.cell c)) ∧
      [[Val.num 5], [Val.num 6], [Val.nan], [Val.nan]] =
        t.rows.map (fun r => (selectedCols t "Photon").map (fun c => r.cell c)) ∧
      ([[], [], [], []] : List (List Val)) =
        t.rows.map (fun r => (selectedCols t "Muon").map (fun c => r.cell c)) ∧
      [1, 1, 0, 0] = fit_transform ((t.rows.map (fun r => r.cell "y")).map Val.asTag) ∧
      [Val.num 9, Val.num 10, Val.num 11, Val.num 12] =
        t.rows.map (fun r => r.cell "EventWeight") ∧
      ([[Val.num 1], [Val.num 2], [Val.num 3], [Val.num 4]] :
        List (List Val)).length = t.rows.length ∧
      ([[Val.num 5], [Val.num 6], [Val.nan], [Val.nan]] :
        List (List Val)).length = t.rows.length ∧
      ([[], [], [], []] : List (List Val)).length = t.rows.length ∧
      ([1, 1, 0, 0] : List Nat).length = t.rows.length ∧
      ([Val.num 9, Val.num 10, Val.num 11, Val.num 12] : List Val).length = t.rows.length :=
  read_in_row_alignment fsW dW
    [[Val.num 1], [Val.num 2], [Val.num 3], [Val.num 4]]
    [[Val.num 5], [Val.num 6], [Val.nan], [Val.nan]]
    [[], [], [], []]
    [1, 1, 0, 0]
    [Val.num 9, Val.num 10, Val.num 11, Val.num 12]
    (by decide)

/-- C8: given a successfully aggregated combined table, `read_in` raises the
missing-column error exactly when the reserved weight column `EventWeight`
is absent; when it is present, the returned weight vector is the column
verbatim, in row order, with the same length as the class-tag sequence. -/
theorem read_in_weight_extraction (fs : FS) (d : List (String × Patterns)) (t : Table)
    (hagg : aggregate fs d none = .ok (some t)) :
    (read_in fs d = .error PyErr.keyError ↔ "EventWeight" ∉ t.cols) ∧
    ("EventWeight" ∈ t.cols →
      ∃ Xj Xp Xm y, read_in fs d =
          .ok (Xj, Xp, Xm, y, t.rows.map (fun r => r.cell "EventWeight")) ∧
        (t.rows.map (fun r => r.cell "EventWeight")).length =
          (t.rows.map (fun r => r.cell "y")).length) := by
  refine ⟨⟨fun herr hwmem => ?_, fun hw => read_in_keyError_of_weight_not_mem hagg hw⟩,
    fun hw => ⟨_, _, _, _, read_in_ok_of_weight_mem hagg hw, by simp⟩⟩
  rw [read_in_ok_of_weight_mem hagg hwmem] at herr
  simp at herr

/-- C8 witness: the weight-extraction theorem applied to the concrete
combined table of the witness world, where the weight column is present. -/
theorem read_in_weight_extraction_witness :
    (read_in fsW dW = .error PyErr.keyError ↔ "EventWeight" ∉ tW.cols) ∧
    ("EventWeight" ∈ tW.cols →
      ∃ Xj Xp Xm y, read_in fsW dW =
          .ok (Xj, Xp, Xm, y, tW.rows.map (fun r => r.cell "EventWeight")) ∧
        (tW.rows.map (fun r => r.cell "EventWeight")).length =
          (tW.rows.map (fun r => r.cell "y")).length) :=
  read_in_weight_extraction fsW dW tW (by decide)

/-- C4 witness: a concrete class whose glob matches nothing aborts the
concrete pipeline. -/
theorem zero_matches_abort_witness :
    root2pandas fsW (Patterns.single "z*") = .error PyErr.indexError ∧
    ∀ res, read_in fsW [("sig", Patterns.single "s*"), ("bad", Patterns.single "z*")] ≠
      .ok res :=
  zero_matches_abort fsW (Patterns.single "z*")
    [("sig", Patterns.single "s*"), ("bad", Patterns.single "z*")] "bad"
    (by decide) (by decide)

/-- C6: loading two files through the Record Loader when one lacks a column
present in the other yields a single unified table: its column set is the
union of the two files' columns, its rows are all rows of the first file
followed by all rows of the second, and every cell of a row whose file
lacked that column reads as the absence marker. -/
theorem root2pandas_schema_union (fs : FS) (pats : Patterns) (f1 f2 : String)
    (hexp : expandPatterns fs pats = [f1, f2])
    (h1 : (fs.load f1).WF) (h2 : (fs.load f2).WF) :
    ∃ t : Table, root2pandas fs pats = .ok t ∧
      (∀ c, c ∈ t.cols ↔ c ∈ (fs.load f1).cols ∨ c ∈ (fs.load f2).cols) ∧
      t.rows = (fs.load f1).rows ++ (fs.load f2).rows ∧
      (∀ c, c ∈ (fs.load f2).cols → c ∉ (fs.load f1).cols →
        ∀ r ∈ (fs.load f1).rows, r.cell c = Val.nan) ∧
      (∀ c, c ∈ (fs.load f1).cols → c ∉ (fs.load f2).cols →
        ∀ r ∈ (fs.load f2).rows, r.cell c = Val.nan) := by
  have hne : expandPatterns fs pats ≠ [] := by rw [hexp]; simp
  refine ⟨loadedTable fs pats, root2pandas_ok hne, ?_, ?_, ?_, ?_⟩
  · intro c
    show c ∈ stackCols ((expandPatterns fs pats).map fun f => (fs.load f).cols) ↔ _
    rw [hexp]
    show c ∈ unionCols (unionCols [] (fs.load f1).cols) (fs.load f2).cols ↔ _
    rw [mem_unionCols, mem_unionCols]
    simp
  · show (expandPatterns fs pats).flatMap (fun f => (fs.load f).rows) = _
    rw [hexp]
    simp
  · intro c hc2 hc1 r hr
    apply Row.cell_of_all_ne
    intro p hp
    have hpc : p.1 ∈ (fs.load f1).cols := by
      rw [← h1 r hr]
      exact List.mem_map_of_mem Prod.fst hp
    exact fun he => hc1 (he ▸ hpc)
  · intro c hc1 hc2 r hr
    apply Row.cell_of_all_ne
    intro p hp
    have hpc : p.1 ∈ (fs.load f2).cols := by
      rw [← h2 r hr]
      exact List.mem_map_of_mem Prod.fst hp
    exact fun he => hc2 (he ▸ hpc)

/-- C6 witness: a concrete signal file with a photon column and a background
file without one, loaded through one call. -/
theorem root2pandas_schema_union_witness :
    ∃ t : Table, root2pandas fsW (Patterns.several ["s*", "b1*"]) = .ok t ∧
      (∀ c, c ∈ t.cols ↔ c ∈ (fsW.load "s1").cols ∨ c ∈ (fsW.load "b1").cols) ∧
      t.rows = (fsW.load "s1").rows ++ (fsW.load "b1").rows ∧
      (∀ c, c ∈ (fsW.load "b1").cols → c ∉ (fsW.load "s1").cols →
        ∀ r ∈ (fsW.load "s1").rows, r.cell c = Val.nan) ∧
      (∀ c, c ∈ (fsW.load "s1").cols → c ∉ (fsW.load "b1").cols →
        ∀ r ∈ (fsW.load "b1").rows, r.cell c = Val.nan) :=
  root2pandas_schema_union fsW (Patterns.several ["s*", "b1*"]) "s1" "b1"
    (by decide) (by decide) (by decide)

theorem np_unique_perm (tags : List String) : (np_unique tags).Perm tags.dedup :=
  List.perm_insertionSort _ _

theorem np_unique_nodup (tags : List String) : (np_unique tags).Nodup :=
  ((np_unique_perm tags).nodup_iff).2 (List.nodup_dedup tags)

theorem mem_np_unique {tags : List String} {x : String} :
    x ∈ np_unique tags ↔ x ∈ tags := by
  rw [(np_unique_perm tags).mem_iff, List.mem_dedup]

theorem np_unique_sorted (tags : List String) :
    (np_unique tags).Sorted (fun s t => strLe s t = true) :=
  List.sorted_insertionSort _ _

/-- C3: label encoding is a bijective re-encoding of the tags: the encoder's
class list has exactly one entry per distinct tag, every code lies below the
number of distinct tags, every such code is attained by some observed tag,
and decoding each code through the class list reconstructs the original tag
sequence exactly. -/
theorem fit_transform_bijection (tags : List String) :
    (np_unique tags).length = tags.toFinset.card ∧
    (∀ x ∈ tags, (np_unique tags).indexOf x < (np_unique tags).length) ∧
    (∀ j < (np_unique tags).length, ∃ x ∈ tags, (np_unique tags).indexOf x = j) ∧
    (fit_transform tags).map (fun j => (np_unique tags).getD j "") = tags := by
  refine ⟨?_, ?_, ?_, ?_⟩
  · rw [(np_unique_perm tags).length_eq, List.card_toFinset]
  · intro x hx
    exact List.indexOf_lt_length.2 (mem_np_unique.2 hx)
  · intro j hj
    refine ⟨(np_unique tags).get ⟨j, hj⟩, mem_np_unique.1 (List.get_mem _ _ hj), ?_⟩
    have hidx := List.indexOf_getElem (np_unique_nodup tags) j hj
    simpa [List.get_eq_getElem] using hidx
  · unfold fit_transform
    rw [List.map_map]
    conv_rhs => rw [← List.map_id tags]
    apply List.map_congr_left
    intro x hx
    have hm : x ∈ np_unique tags := mem_np_unique.2 hx
    have hlt : (np_unique tags).indexOf x < (np_unique tags).length :=
      List.indexOf_lt_length.2 hm
    show (np_unique tags).getD ((np_unique tags).indexOf x) "" = x
    rw [List.getD_eq_getElem _ _ hlt]
    exact List.getElem_indexOf hlt

/-- C3 witness: the bijection theorem at a concrete tag sequence with two
distinct tags. -/
theorem fit_transform_bijection_witness :
    (np_unique ["sig", "sig", "bkg"]).length = (["sig", "sig", "bkg"] : List String).toFinset.card ∧
    (∀ x ∈ ["sig", "sig", "bkg"],
      (np_unique ["sig", "sig", "bkg"]).indexOf x < (np_unique ["sig", "sig", "bkg"]).length) ∧
    (∀ j < (np_unique ["sig", "sig", "bkg"]).length,
      ∃ x ∈ ["sig", "sig", "bkg"], (np_unique ["sig", "sig", "bkg"]).indexOf x = j) ∧
    (fit_transform ["sig", "sig", "bkg"]).map
      (fun j => (np_unique ["sig", "sig", "bkg"]).getD j "") = ["sig", "sig", "bkg"] :=
  fit_transform_bijection ["sig", "sig", "bkg"]

/-- C10: the encoding is deterministic across runs: the class list is the
distinct tags in lexicographically sorted order, so any two tag sequences
with the same set of distinct tags get the identical tag-to-code mapping,
and identical tag sequences get identical code sequences. -/
theorem fit_transform_deterministic (tags1 tags2 : List String)
    (h : tags1.toFinset = tags2.toFinset) :
    (np_unique tags1).Sorted (fun s t => strLe s t = true) ∧
    np_unique tags1 = np_unique tags2 ∧
    (∀ x, (np_unique tags1).indexOf x = (np_unique tags2).indexOf x) ∧
    fit_transform tags1 = tags1.map (fun x => (np_unique tags1).indexOf x) ∧
    (tags1 = tags2 → fit_transform tags1 = fit_transform tags2) := by
  have hmem : ∀ a, a ∈ tags1.dedup ↔ a ∈ tags2.dedup := by
    intro a
    rw [List.mem_dedup, List.mem_dedup, ← List.mem_toFinset, h, List.mem_toFinset]
  have hperm : (np_unique tags1).Perm (np_unique tags2) :=
    ((np_unique_perm tags1).trans
      ((List.perm_ext_iff_of_nodup (List.nodup_dedup _) (List.nodup_dedup _)).2 hmem)).trans
      (np_unique_perm tags2).symm
  have heq : np_unique tags1 = np_unique tags2 :=
    List.eq_of_perm_of_sorted hperm (np_unique_sorted tags1) (np_unique_sorted tags2)
  exact ⟨np_unique_sorted tags1, heq, fun x => by rw [heq], rfl, fun he => by rw [he]⟩

/-- C10 witness: two different tag sequences over the same distinct tags get
the same class list and mapping. -/
theorem fit_transform_deterministic_witness :
    (np_unique ["b", "a"]).Sorted (fun s t => strLe s t = true) ∧
    np_unique ["b", "a"] = np_unique ["b", "a", "b", "a"] ∧
    (∀ x, (np_unique ["b", "a"]).indexOf x = (np_unique ["b", "a", "b", "a"]).indexOf x) ∧
    fit_transform ["b", "a"] = (["b", "a"] : List String).map
      (fun x => (np_unique ["b", "a"]).indexOf x) ∧
    (["b", "a"] = ["b", "a", "b", "a"] →
      fit_transform ["b", "a"] = fit_transform ["b", "a", "b", "a"]) :=
  fit_transform_deterministic ["b", "a"] ["b", "a", "b", "a"] (by decide)

/-- C9: `scale_shuffle_split` as written references the names `X1`, `X2`,
`X3` (and `train_test_split`), none of which is bound in its local or module
scope, so on every input its first statement raises an undefined-name error
and the function never returns a result. -/
theorem scale_shuffle_split_name_error
    (X_jets X_photons X_muons : List (List Val)) (y : List Nat) (w : List Val) :
    scale_shuffle_split X_jets X_photons X_muons y w =
      .error (PyErr.nameError "train_test_split") ∧
    ("X1" ∈ sssFirstStmtNames ∧ "X1" ∉ sssParamNames ∧ "X1" ∉ moduleScopeNames) ∧
    ("X2" ∈ sssFirstStmtNames ∧ "X2" ∉ sssParamNames ∧ "X2" ∉ moduleScopeNames) ∧
    ("X3" ∈ sssFirstStmtNames ∧ "X3" ∉ sssParamNames ∧ "X3" ∉ moduleScopeNames) ∧
    (∀ res, scale_shuffle_split X_jets X_photons X_muons y w ≠ .ok res) := by
  refine ⟨rfl, by decide, by decide, by decide, ?_⟩
  intro res h
  rw [show scale_shuffle_split X_jets X_photons X_muons y w =
    .error (PyErr.nameError "train_test_split") from rfl] at h
  simp at h

/-- C9 witness: the undefined-name failure at concrete empty inputs. -/
theorem scale_shuffle_split_name_error_witness :
    scale_shuffle_split [] [] [] [] [] = .error (PyErr.nameError "train_test_split") ∧
    ("X1" ∈ sssFirstStmtNames ∧ "X1" ∉ sssParamNames ∧ "X1" ∉ moduleScopeNames) ∧
    ("X2" ∈ sssFirstStmtNames ∧ "X2" ∉ sssParamNames ∧ "X2" ∉ moduleScopeNames) ∧
    ("X3" ∈ sssFirstStmtNames ∧ "X3" ∉ sssParamNames ∧ "X3" ∉ moduleScopeNames) ∧
    (∀ res, scale_shuffle_split [] [] [] [] [] ≠ .ok res) :=
  scale_shuffle_split_name_error [] [] [] [] []
